import Mathlib

/-!
Shallow embedding of the mock-generation tool in `cmd/mock_gen/main.go`.

The core pipeline is `interfaceToMock`: parse the input fragment with
`go/parser` (an external library; its outcome is modelled here as an
`Except` value handed to the core), walk the top-level declarations,
build one `Mocks{MockName, Methods}` record per discovered interface via
`getMethodsFromInterface`, and execute the fixed `text/template` on the
result.  Go run-time panics (out-of-range indexing, nil dereference,
failed type assertions) are modelled by `Option`: `Option.none` means the
call aborts instead of returning.

Type expressions mirror the `go/ast` node kinds that the source
inspects.  `chanType`, `ellipsisType` and `structType` stand for the
node kinds that fall into `getTypeName`'s `default:` branch.  In
`ast.ArrayType` the `Len` field is ignored by `getTypeName`, so it is
not modelled.  Whitespace classification in `strings.Fields` is modelled
for the ASCII space classes, which covers every string the generator
itself produces.
-/

namespace MockGen

mutual

inductive Expr : Type where
  | ident : String → Expr
  | selectorExpr : Expr → String → Expr
  | starExpr : Expr → Expr
  | arrayType : Expr → Expr
  | mapType : Expr → Expr → Expr
  | interfaceType : FieldList → Expr
  | funcType : FieldListOpt → FieldListOpt → Expr
  | structType : FieldList → Expr
  | chanType : Expr → Expr
  | ellipsisType : Expr → Expr

inductive Field : Type where
  | mk : List String → Expr → Field

inductive FieldList : Type where
  | nil : FieldList
  | cons : Field → FieldList → FieldList

inductive FieldListOpt : Type where
  | none : FieldListOpt
  | some : FieldList → FieldListOpt

end

/-- Specs inside an `ast.GenDecl`: only `ast.TypeSpec` is inspected by the
source; import and value specs are `otherSpec`. -/
inductive Spec : Type where
  | typeSpec : String → Expr → Spec
  | otherSpec : Spec

/-- Top-level declarations: `ast.GenDecl` carries its spec list; every other
declaration kind (e.g. `ast.FuncDecl`) is skipped by the source's loop. -/
inductive Decl : Type where
  | genDecl : List Spec → Decl
  | otherDecl : Decl

/-- Model of `strings.Join(l, ", ")`. -/
def joinCS : List String → String
  | [] => ""
  | [s] => s
  | s :: rest => s ++ ", " ++ joinCS rest

/-- Model of `strings.Split(s, ", ")` on character lists: scan left to
right, cutting at each non-overlapping occurrence of `", "`. -/
def splitCSAux : List Char → List (List Char)
  | [] => [[]]
  | [c] => [[c]]
  | c :: d :: rest =>
    if c = ',' && d = ' ' then
      [] :: splitCSAux rest
    else
      match splitCSAux (d :: rest) with
      | [] => [[c]]
      | t :: ts => (c :: t) :: ts

/-- Model of `strings.Split(s, ", ")`. -/
def goSplitCS (s : String) : List String :=
  (splitCSAux s.data).map String.mk

/-- Whitespace test used by `strings.Fields` (`unicode.IsSpace`), modelled
for the ASCII space classes. -/
def goIsSpace (c : Char) : Bool :=
  c = ' ' || c = '\t' || c = '\n' || c = '\x0b' || c = '\x0c' || c = '\r'

/-- Accumulator worker for `strings.Fields`: `acc` holds the reversed
characters of the token currently being read. -/
def fieldsAux (acc : List Char) : List Char → List (List Char)
  | [] => if acc.isEmpty then [] else [acc.reverse]
  | c :: rest =>
    if goIsSpace c then
      if acc.isEmpty then fieldsAux [] rest
      else acc.reverse :: fieldsAux [] rest
    else fieldsAux (c :: acc) rest

/-- Model of `strings.Fields`: maximal runs of non-space characters. -/
def goFields (s : String) : List String :=
  (fieldsAux [] s.data).map String.mk

mutual

/-- Model of `getTypeName`.  The `SelectorExpr` case mirrors
`x, _ := t.X.(*ast.Ident)` followed by `x.Name`: when `X` is not an
identifier, `x` is nil and the field access panics (`Option.none`).
The `FuncType` case is `"func" + getFunctionSignature(t)` with the body
of `getFunctionSignature` spelled out per nil-pattern of the two field
lists (so that the recursion stays structural); `getFunctionSignature`
below packages the same computation under the source's name.  The final
three cases are instances of the source's `default:` branch. -/
def getTypeName : Expr → Option String
  | .ident name => Option.some name
  | .selectorExpr x sel =>
    match x with
    | .ident xname => Option.some (xname ++ "." ++ sel)
    | _ => Option.none
  | .starExpr x => (getTypeName x).map (fun s => "" ++ s)
  | .arrayType elt => (getTypeName elt).map (fun s => "[]" ++ s)
  | .mapType key value => do
    let k ← getTypeName key
    let v ← getTypeName value
    Option.some ("map[" ++ k ++ "]" ++ v)
  | .interfaceType _ => Option.some "interface\x7b\x7d"
  | .funcType .none .none =>
    Option.some ("func" ++ ("(" ++ joinCS [] ++ ")"))
  | .funcType (.some p) .none => do
    let ps ← fieldListParams p
    Option.some ("func" ++ ("(" ++ joinCS [joinCS ps] ++ ")"))
  | .funcType .none (.some r) => do
    let rs ← fieldListParams r
    Option.some ("func" ++ ("(" ++ joinCS [joinCS rs] ++ ")"))
  | .funcType (.some p) (.some r) => do
    let ps ← fieldListParams p
    let rs ← fieldListParams r
    Option.some ("func" ++ ("(" ++ joinCS [joinCS ps, joinCS rs] ++ ")"))
  | .structType _ => Option.some ""
  | .chanType _ => Option.some ""
  | .ellipsisType _ => Option.some ""

/-- The loop body of `getParameters`: the rendered entries contributed by
each field, in order. -/
def fieldListParams : FieldList → Option (List String)
  | .nil => Option.some []
  | .cons f fs => do
    let a ← fieldParams f
    let b ← fieldListParams fs
    Option.some (a ++ b)

/-- One field of `getParameters`'s loop: a field with no names contributes
its type text alone; otherwise one `"name type"` entry per name. -/
def fieldParams : Field → Option (List String)
  | .mk names ty => do
    let t ← getTypeName ty
    match names with
    | [] => Option.some [t]
    | _ => Option.some (names.map (fun n => n ++ " " ++ t))

end

/-- Model of `getParameters`: empty text for a nil field list, otherwise
the `", "`-join of the per-field entries. -/
def getParameters : FieldListOpt → Option String
  | .none => Option.some (joinCS [])
  | .some fs => (fieldListParams fs).map joinCS

/-- Model of `getFunctionSignature`: appends `getParameters(Params)` and
`getParameters(Results)` (each only when the field list is non-nil) and
joins the collected strings with `", "` inside parentheses.  This is the
computation inlined in `getTypeName`'s `FuncType` cases. -/
def getFunctionSignature : FieldListOpt → FieldListOpt → Option String
  | .none, .none => Option.some ("(" ++ joinCS [] ++ ")")
  | .some p, .none => do
    let ps ← getParameters (.some p)
    Option.some ("(" ++ joinCS [ps] ++ ")")
  | .none, .some r => do
    let rs ← getParameters (.some r)
    Option.some ("(" ++ joinCS [rs] ++ ")")
  | .some p, .some r => do
    let ps ← getParameters (.some p)
    let rs ← getParameters (.some r)
    Option.some ("(" ++ joinCS [ps, rs] ++ ")")

/-- Model of `getArgumentNames`: split the rendered parameter list on
`", "` and take `parts[0]` of `strings.Fields` of each piece; the indexing
panics (`Option.none`) when a piece has no fields. -/
def getArgumentNames (paramList : String) : Option String := do
  let argNames ← (goSplitCS paramList).mapM (fun param => (goFields param).head?)
  Option.some (joinCS argNames)

/-- Model of `getTypeNameFromString`: `parts[len(parts)-1]` of
`strings.Fields`; the indexing panics (`Option.none`) when there are no
fields. -/
def getTypeNameFromString (typeString : String) : Option String :=
  (goFields typeString).getLast?

/-- The indexed loop of `getReturnNames`, generalized over the starting
index `i`. -/
def returnNamesAux (i : Nat) : List String → Option (List String)
  | [] => Option.some []
  | r :: rest => do
    let t ← getTypeNameFromString r
    let more ← returnNamesAux (i + 1) rest
    Option.some (("args.Get(" ++ toString i ++ ").(" ++ t ++ ")") :: more)

/-- Model of `getReturnNames`: split the rendered result list on `", "`
and build one `args.Get(i).(T)` extraction per piece. -/
def getReturnNames (returnList : String) : Option String := do
  let names ← returnNamesAux 0 (goSplitCS returnList)
  Option.some (joinCS names)

/-- The per-method body of `getMethodsFromInterface`'s loop:
`method.Names[0]` and the `*ast.FuncType` assertion panic when absent
(`Option.none`), then the method code is assembled with `fmt.Sprintf`. -/
def methodData (mockName : String) : Field → Option String
  | .mk names ty => do
    let methodName ← names.head?
    match ty with
    | .funcType ps rs => do
      let paramList ← getParameters ps
      let returnList ← getParameters rs
      let argNames ← getArgumentNames paramList
      let retNames ← getReturnNames returnList
      Option.some ("func (m *" ++ mockName ++ ") " ++ methodName ++ "(" ++
        paramList ++ ") (" ++ returnList ++ ") \x7b\n\targs := m.Called(" ++
        argNames ++ ")\n\treturn " ++ retNames ++ "\n\x7d")
    | _ => Option.none

/-- Model of `getMethodsFromInterface`: one method-code string per method
field, in source order. -/
def getMethodsFromInterface (interfaceType : FieldList) (mockName : String) :
    Option (List String) :=
  match interfaceType with
  | .nil => Option.some []
  | .cons m ms => do
    let code ← methodData mockName m
    let rest ← getMethodsFromInterface ms mockName
    Option.some (code :: rest)

/-- The struct branch of `interfaceToMock`'s loop: every field whose type
is an inline interface yields one mock named `<FieldName>Mock`
(`field.Names[0]` panics when the field is unnamed); other fields are
skipped. -/
def mocksFromStructFields : FieldList → Option (List (String × List String))
  | .nil => Option.some []
  | .cons f fs =>
    match f with
    | .mk names ty =>
      match ty with
      | .interfaceType ms => do
        let n ← names.head?
        let name := n ++ "Mock"
        let methods ← getMethodsFromInterface ms name
        let rest ← mocksFromStructFields fs
        Option.some ((name, methods) :: rest)
      | _ => mocksFromStructFields fs

/-- The `switch typeSpec.Type` of `interfaceToMock`: interface types yield
one mock named `<TypeName>Mock`, struct types are scanned for inline
interface fields, anything else contributes nothing. -/
def mocksFromSpec : Spec → Option (List (String × List String))
  | .typeSpec name ty =>
    match ty with
    | .interfaceType ms => do
      let n := name ++ "Mock"
      let methods ← getMethodsFromInterface ms n
      Option.some [(n, methods)]
    | .structType fields => mocksFromStructFields fields
    | _ => Option.some []
  | .otherSpec => Option.some []

/-- Accumulation over the specs of one `ast.GenDecl`. -/
def mocksFromSpecs : List Spec → Option (List (String × List String))
  | [] => Option.some []
  | s :: rest => do
    let a ← mocksFromSpec s
    let b ← mocksFromSpecs rest
    Option.some (a ++ b)

/-- One top-level declaration: only `ast.GenDecl` is inspected. -/
def mocksFromDecl : Decl → Option (List (String × List String))
  | .genDecl specs => mocksFromSpecs specs
  | .otherDecl => Option.some []

/-- Accumulation over `node.Decls`, in declaration order. -/
def mocksFromDecls : List Decl → Option (List (String × List String))
  | [] => Option.some []
  | d :: rest => do
    let a ← mocksFromDecl d
    let b ← mocksFromDecls rest
    Option.some (a ++ b)

/-- The fixed text emitted before the first mock block by `mockTemplate`. -/
def mockHeader : String :=
  "\npackage mocks\n\nimport (\n\t\"github.com/stretchr/testify/mock\"\n)\n"

/-- Per-method text of `mockTemplate`'s inner `range`: the left-trimmed
action contributes a blank line and the method code. -/
def renderMethods : List String → String
  | [] => ""
  | m :: ms => "\n\n" ++ m ++ renderMethods ms

/-- Per-mock text of `mockTemplate`'s outer `range`: the struct block
embedding `mock.Mock`, the methods, and the trailing newline kept by the
untrimmed `{{ end -}}` line. -/
def renderMock (mk : String × List String) : String :=
  "\ntype " ++ mk.1 ++ " struct \x7b\n\tmock.Mock\n\x7d" ++
    renderMethods mk.2 ++ "\n"

/-- Concatenation of the outer `range` over all mocks. -/
def renderMocks : List (String × List String) → String
  | [] => ""
  | m :: ms => renderMock m ++ renderMocks ms

/-- Model of `tmpl.Execute` on `mockTemplate` (the template literal parses
successfully, and executing it on the assembled data cannot fail): the
fixed header followed by one block per mock. -/
def executeTemplate (mocks : List (String × List String)) : String :=
  mockHeader ++ renderMocks mocks

/-- The core of `interfaceToMock` after a successful parse: assemble the
template data from the declarations and execute the template, producing
the full output text; `Option.none` models a run-time panic. -/
def interfaceToMockDecls (decls : List Decl) : Option String := do
  let mocks ← mocksFromDecls decls
  Option.some (executeTemplate mocks)

/-- Model of `interfaceToMock`.  `go/parser.ParseFile` is external; its
outcome on `"package main\n" ++ interfaceCode` is the `Except` argument.
The `String` argument and component are the output sink's contents before
and after the call (the buffered writer is flushed by the caller):
a parse error is returned wrapped as `parser.ParseFile: ...` with the
sink untouched, a successful run appends the rendered text, and
`Option.none` models a panic. -/
def interfaceToMock (parseResult : Except String (List Decl)) (sink : String) :
    Option (Except String Unit × String) :=
  match parseResult with
  | .error e => Option.some (Except.error ("parser.ParseFile: " ++ e), sink)
  | .ok decls =>
    match interfaceToMockDecls decls with
    | Option.none => Option.none
    | Option.some out => Option.some (Except.ok (), sink ++ out)

/-- Conversion of the embedded field-list spine to a `List` for stating
membership. -/
def FieldList.toList : FieldList → List Field
  | .nil => []
  | .cons f fs => f :: toList fs

/-- A character list contains an occurrence of the separator `", "`. -/
def hasCS : List Char → Bool
  | [] => false
  | [_] => false
  | c :: d :: rest => (c = ',' && d = ' ') || hasCS (d :: rest)

/-- A plausible Go identifier for our purposes: nonempty, and free of
whitespace and commas. -/
def cleanIdent (s : String) : Bool :=
  !s.data.isEmpty && s.data.all (fun c => !goIsSpace c && !(c = ','))

/-- Input with one interface whose single method `M(a int)` declares zero
results (in `go/ast`, `Results` is nil for such a method). -/
def zeroResultInput : List Decl :=
  [.genDecl [.typeSpec "t" (.interfaceType (.cons (.mk ["M"]
    (.funcType (.some (.cons (.mk ["a"] (.ident "int")) .nil)) .none)) .nil))]]

/-- A result field list declaring one named result `f func(b int, c int)`:
one declared result Parameter whose rendered type text contains `", "`. -/
def funcResultField : FieldList :=
  .cons (.mk ["f"] (.funcType (.some (.cons (.mk ["b"] (.ident "int"))
    (.cons (.mk ["c"] (.ident "int")) .nil))) .none)) .nil

/-- The parse of `type bidule interface \x7b Method1(arg1 string, arg2 int)
(string, error) \x7d` after the `package main` wrapper is prepended. -/
def classicInput : List Decl :=
  [.genDecl [.typeSpec "bidule" (.interfaceType (.cons
    (.mk ["Method1"] (.funcType
      (.some (.cons (.mk ["arg1"] (.ident "string"))
             (.cons (.mk ["arg2"] (.ident "int")) .nil)))
      (.some (.cons (.mk [] (.ident "string"))
             (.cons (.mk [] (.ident "error")) .nil)))))
    .nil))]]

/-- A parameter field list declaring two names `a, b` under the shared
function type `func(x int, y int)`, whose rendered text embeds `", "`. -/
def groupedFuncField : FieldList :=
  .cons (.mk ["a", "b"] (.funcType (.some (.cons (.mk ["x"] (.ident "int"))
    (.cons (.mk ["y"] (.ident "int")) .nil))) .none)) .nil

/-- Input with one interface whose single method `M() int` has an empty
parameter list (in `go/ast`, `Params` is a non-nil empty field list). -/
def emptyParamsInput : List Decl :=
  [.genDecl [.typeSpec "t" (.interfaceType (.cons (.mk ["M"]
    (.funcType (.some .nil) (.some (.cons (.mk [] (.ident "int")) .nil)))) .nil))]]

theorem getTypeName_funcType (ps rs : FieldListOpt) :
    getTypeName (.funcType ps rs) =
      (getFunctionSignature ps rs).map (fun s => "func" ++ s) := by
  cases ps with
  | none =>
    cases rs with
    | none => rfl
    | some r =>
      simp only [getTypeName, getFunctionSignature, getParameters]
      cases fieldListParams r <;> rfl
  | some p =>
    cases rs with
    | none =>
      simp only [getTypeName, getFunctionSignature, getParameters]
      cases fieldListParams p <;> rfl
    | some r =>
      simp only [getTypeName, getFunctionSignature, getParameters]
      cases fieldListParams p <;> cases fieldListParams r <;> rfl

theorem hasCS_cons_cons (c d : Char) (rest : List Char) :
    hasCS (c :: d :: rest) = ((c = ',' && d = ' ') || hasCS (d :: rest)) := rfl

theorem splitCSAux_noCS (p : List Char) (h : hasCS p = false) :
    splitCSAux p = [p] := by
  induction p with
  | nil => rfl
  | cons c tail ih =>
    cases tail with
    | nil => rfl
    | cons d rest =>
      rw [hasCS_cons_cons, Bool.or_eq_false_iff] at h
      rw [splitCSAux, if_neg (by simp [h.1]), ih h.2]

theorem splitCSAux_append_sep (p l : List Char) (h : hasCS p = false) :
    splitCSAux (p ++ ',' :: ' ' :: l) = p :: splitCSAux l := by
  induction p with
  | nil => rw [List.nil_append, splitCSAux, if_pos (by simp)]
  | cons c tail ih =>
    cases tail with
    | nil =>
      rw [List.cons_append, List.nil_append, splitCSAux,
        if_neg (by simp), splitCSAux, if_pos (by simp)]
    | cons d rest =>
      rw [hasCS_cons_cons, Bool.or_eq_false_iff] at h
      rw [List.cons_append, List.cons_append, splitCSAux,
        if_neg (by simp [h.1])]
      rw [show (d :: rest) ++ ',' :: ' ' :: l = (d :: rest) ++ ',' :: ' ' :: l from rfl] at ih
      rw [List.cons_append] at ih
      rw [ih h.2]

theorem hasCS_append_space (a b : List Char)
    (ha : ∀ c ∈ a, ¬ c = ',') (hb : hasCS b = false) :
    hasCS (a ++ ' ' :: b) = false := by
  induction a with
  | nil =>
    cases b with
    | nil => rfl
    | cons d rest => rw [List.nil_append, hasCS_cons_cons, hb]; simp
  | cons c a2 ih =>
    have hc : ¬ c = ',' := ha c (List.mem_cons_self c a2)
    have ih2 := ih (fun x hx => ha x (List.mem_cons_of_mem c hx))
    cases a2 with
    | nil =>
      rw [List.cons_append, List.nil_append, hasCS_cons_cons]
      rw [List.nil_append] at ih2
      rw [ih2]
      simp [hc]
    | cons d a3 =>
      rw [List.cons_append, List.cons_append, hasCS_cons_cons]
      rw [List.cons_append] at ih2
      rw [ih2]
      simp [hc]

theorem fieldsAux_nonspace_front (a : List Char)
    (ha : ∀ c ∈ a, goIsSpace c = false) :
    ∀ (acc rest : List Char),
      fieldsAux acc (a ++ rest) = fieldsAux (a.reverse ++ acc) rest := by
  induction a with
  | nil => intro acc rest; rfl
  | cons c a2 ih =>
    intro acc rest
    have hc : goIsSpace c = false := ha c (List.mem_cons_self c a2)
    rw [List.cons_append, fieldsAux, if_neg (by simp [hc])]
    rw [ih (fun x hx => ha x (List.mem_cons_of_mem c hx)) (c :: acc) rest]
    simp [List.append_assoc]

theorem fieldsCh_single (a : List Char) (hne : a ≠ [])
    (ha : ∀ c ∈ a, goIsSpace c = false) :
    fieldsAux [] a = [a] := by
  have h := fieldsAux_nonspace_front a ha [] []
  rw [List.append_nil] at h
  rw [h, fieldsAux]
  rw [if_neg (by simp [hne]), List.append_nil, List.reverse_reverse]

theorem fieldsAux_append_space (a t : List Char) (hne : a ≠ [])
    (ha : ∀ c ∈ a, goIsSpace c = false) :
    fieldsAux [] (a ++ ' ' :: t) = a :: fieldsAux [] t := by
  rw [fieldsAux_nonspace_front a ha [] (' ' :: t), List.append_nil, fieldsAux,
    if_pos (by simp [goIsSpace]), if_neg (by simp [hne]), List.reverse_reverse]

theorem strEta (s : String) : String.mk s.data = s := rfl

theorem joinCS_data_cons (x y : String) (t : List String) :
    (joinCS (x :: y :: t)).data = x.data ++ ',' :: ' ' :: (joinCS (y :: t)).data := by
  have h : joinCS (x :: y :: t) = x ++ ", " ++ joinCS (y :: t) := rfl
  rw [h, String.data_append, String.data_append, List.append_assoc]
  rfl

theorem goSplitCS_joinCS (rs : List String) (hne : rs ≠ [])
    (hcs : ∀ r ∈ rs, hasCS r.data = false) :
    goSplitCS (joinCS rs) = rs := by
  induction rs with
  | nil => exact absurd rfl hne
  | cons x t ih =>
    cases t with
    | nil =>
      rw [joinCS, goSplitCS,
        splitCSAux_noCS x.data (hcs x (List.mem_cons_self x [])), List.map, strEta]
      rfl
    | cons y t2 =>
      rw [goSplitCS, joinCS_data_cons,
        splitCSAux_append_sep _ _ (hcs x (List.mem_cons_self x _)), List.map, strEta]
      have := ih (by simp) (fun r hr => hcs r (List.mem_cons_of_mem x hr))
      rw [goSplitCS] at this
      rw [this]

theorem mapM_eq_map {α β : Type} (f : α → Option β) (g : α → β) :
    ∀ l : List α, (∀ a ∈ l, f a = Option.some (g a)) →
      l.mapM f = Option.some (l.map g) := by
  intro l
  induction l with
  | nil => intro _; rfl
  | cons a t ih =>
    intro h
    rw [List.mapM_cons, h a (List.mem_cons_self a t),
      ih (fun x hx => h x (List.mem_cons_of_mem a hx))]
    rfl

theorem getTypeNameFromString_of_fields (r : String) (h : goFields r ≠ []) :
    getTypeNameFromString r = Option.some ((goFields r).getLastD "") := by
  rw [getTypeNameFromString]
  cases hl : (goFields r).getLast? with
  | none => exact absurd (List.getLast?_eq_none_iff.mp hl) h
  | some x => rw [List.getLastD_eq_getLast?, hl]; rfl

theorem returnNamesAux_spec (rs : List String)
    (h : ∀ r ∈ rs, goFields r ≠ []) :
    ∀ i : Nat, returnNamesAux i rs = Option.some ((List.enumFrom i rs).map (fun p =>
      "args.Get(" ++ toString p.1 ++ ").(" ++ (goFields p.2).getLastD "" ++ ")")) := by
  induction rs with
  | nil => intro i; rfl
  | cons r t ih =>
    intro i
    rw [returnNamesAux,
      getTypeNameFromString_of_fields r (h r (List.mem_cons_self r t)),
      ih (fun x hx => h x (List.mem_cons_of_mem r hx)) (i + 1)]
    rfl

theorem getMethodsFromInterface_none (mockName : String) :
    ∀ (ms : FieldList) (m : Field), m ∈ ms.toList →
      methodData mockName m = Option.none →
      getMethodsFromInterface ms mockName = Option.none
  | .nil, m, hm, _ => absurd hm (by simp [FieldList.toList])
  | .cons f fs, m, hm, h => by
    rw [FieldList.toList] at hm
    rcases List.mem_cons.mp hm with heq | htail
    · subst heq
      rw [getMethodsFromInterface, h]
      rfl
    · cases hf : methodData mockName f with
      | none => rw [getMethodsFromInterface, hf]; rfl
      | some c =>
        rw [getMethodsFromInterface, hf,
          getMethodsFromInterface_none mockName fs m htail h]
        rfl

theorem mocksFromSpecs_none (specs : List Spec) (s : Spec)
    (hs : s ∈ specs) (h : mocksFromSpec s = Option.none) :
    mocksFromSpecs specs = Option.none := by
  induction specs with
  | nil => exact absurd hs (by simp)
  | cons x t ih =>
    rcases List.mem_cons.mp hs with heq | htail
    · subst heq; rw [mocksFromSpecs, h]; rfl
    · cases hx : mocksFromSpec x with
      | none => rw [mocksFromSpecs, hx]; rfl
      | some a => rw [mocksFromSpecs, hx, ih htail]; rfl

theorem mocksFromDecls_none (decls : List Decl) (d : Decl)
    (hd : d ∈ decls) (h : mocksFromDecl d = Option.none) :
    mocksFromDecls decls = Option.none := by
  induction decls with
  | nil => exact absurd hd (by simp)
  | cons x t ih =>
    rcases List.mem_cons.mp hd with heq | htail
    · subst heq; rw [mocksFromDecls, h]; rfl
    · cases hx : mocksFromDecl x with
      | none => rw [mocksFromDecls, hx]; rfl
      | some a => rw [mocksFromDecls, hx, ih htail]; rfl

theorem methodData_emptyResults (mockName : String) (names : List String)
    (ps rs : FieldListOpt) (hrs : rs = .none ∨ rs = .some .nil) :
    methodData mockName (.mk names (.funcType ps rs)) = Option.none := by
  have hret : getParameters rs = Option.some "" := by
    rcases hrs with h | h <;> subst h <;> rfl
  cases names with
  | nil => rfl
  | cons n ns =>
    rw [methodData]
    cases hps : getParameters ps with
    | none => simp [hps]
    | some pl =>
      cases ha : getArgumentNames pl with
      | none => simp [hps, hret, ha]
      | some a =>
        have hrn : getReturnNames "" = Option.none := rfl
        simp [hps, hret, ha, hrn]

theorem methodData_emptyParams (mockName : String) (names : List String)
    (ps rs : FieldListOpt) (hps : ps = .none ∨ ps = .some .nil) :
    methodData mockName (.mk names (.funcType ps rs)) = Option.none := by
  have hpar : getParameters ps = Option.some "" := by
    rcases hps with h | h <;> subst h <;> rfl
  cases names with
  | nil => rfl
  | cons n ns =>
    rw [methodData]
    cases hr : getParameters rs with
    | none => simp [hpar, hr]
    | some rl =>
      have ha : getArgumentNames "" = Option.none := rfl
      simp [hpar, hr, ha]

theorem cleanIdent_ne_nil (s : String) (h : cleanIdent s = true) : s.data ≠ [] := by
  rw [cleanIdent, Bool.and_eq_true] at h
  intro hc
  rw [hc] at h
  simp at h

theorem cleanIdent_nospace (s : String) (h : cleanIdent s = true) :
    ∀ c ∈ s.data, goIsSpace c = false := by
  rw [cleanIdent, Bool.and_eq_true, List.all_eq_true] at h
  intro c hc
  have h2 := h.2 c hc
  rw [Bool.and_eq_true] at h2
  simpa using h2.1

theorem cleanIdent_nocomma (s : String) (h : cleanIdent s = true) :
    ∀ c ∈ s.data, ¬ c = ',' := by
  rw [cleanIdent, Bool.and_eq_true, List.all_eq_true] at h
  intro c hc
  have h2 := h.2 c hc
  rw [Bool.and_eq_true] at h2
  simpa using h2.2

theorem goFields_single (s : String) (h1 : s.data ≠ [])
    (h2 : ∀ c ∈ s.data, goIsSpace c = false) : goFields s = [s] := by
  rw [goFields, fieldsCh_single s.data h1 h2, List.map_cons, List.map_nil, strEta]

theorem name_type_data (n t : String) :
    (n ++ " " ++ t).data = n.data ++ ' ' :: t.data := by
  rw [String.data_append, String.data_append, List.append_assoc]
  rfl

theorem goFields_name_type (n t : String) (h1 : n.data ≠ [])
    (h2 : ∀ c ∈ n.data, goIsSpace c = false) :
    goFields (n ++ " " ++ t) = n :: goFields t := by
  rw [goFields, name_type_data, fieldsAux_append_space n.data t.data h1 h2,
    List.map_cons, strEta]
  rfl

theorem hasCS_name_type (n t : String) (hn : ∀ c ∈ n.data, ¬ c = ',')
    (ht : hasCS t.data = false) : hasCS ((n ++ " " ++ t).data) = false := by
  rw [name_type_data]
  exact hasCS_append_space n.data t.data hn ht

theorem qualified_data (pkg nm : String) :
    (pkg ++ "." ++ nm).data = pkg.data ++ '.' :: nm.data := by
  rw [String.data_append, String.data_append, List.append_assoc]
  rfl

theorem qualified_ne_nil (pkg nm : String) : (pkg ++ "." ++ nm).data ≠ [] := by
  rw [qualified_data]
  simp

theorem qualified_nospace (pkg nm : String) (h1 : cleanIdent pkg = true)
    (h2 : cleanIdent nm = true) :
    ∀ c ∈ (pkg ++ "." ++ nm).data, goIsSpace c = false := by
  rw [qualified_data]
  intro c hc
  rcases List.mem_append.mp hc with hl | hr
  · exact cleanIdent_nospace pkg h1 c hl
  · rcases List.mem_cons.mp hr with hdot | hm
    · subst hdot; rfl
    · exact cleanIdent_nospace nm h2 c hm

/-- Claim C1, as stated, is false: on an interface whose method has zero
results the generation call does not succeed — it aborts (index out of
range in `getTypeNameFromString` on the empty rendered result list)
instead of emitting a method body without a return statement. -/
theorem zeroResultsClaimFalse :
    interfaceToMock (.ok zeroResultInput) "" = Option.none := rfl

/-- Claim C1 (amended): for every interface method declared with zero
results (`Results` nil or an empty field list), the generation call
aborts with an index-out-of-range panic instead of returning normally:
`strings.Split("", ", ")` yields one empty piece and
`getTypeNameFromString` indexes the last entry of the empty
`strings.Fields` of that piece (note also that the method-body format
string emits `return %s` unconditionally, so a body consisting of the
call-recording statement alone is impossible). -/
theorem zeroResultsAborts (decls : List Decl) (specs : List Spec) (nm : String)
    (ms : FieldList) (names : List String) (ps rs : FieldListOpt)
    (hd : Decl.genDecl specs ∈ decls)
    (hs : Spec.typeSpec nm (.interfaceType ms) ∈ specs)
    (hm : Field.mk names (.funcType ps rs) ∈ ms.toList)
    (hrs : rs = .none ∨ rs = .some .nil) :
    interfaceToMockDecls decls = Option.none := by
  have h1 : methodData (nm ++ "Mock") (.mk names (.funcType ps rs)) = Option.none :=
    methodData_emptyResults _ names ps rs hrs
  have h2 : getMethodsFromInterface ms (nm ++ "Mock") = Option.none :=
    getMethodsFromInterface_none _ ms _ hm h1
  have h3 : mocksFromSpec (.typeSpec nm (.interfaceType ms)) = Option.none := by
    simp only [mocksFromSpec, h2]
    rfl
  have h4 : mocksFromDecl (.genDecl specs) = Option.none := by
    rw [mocksFromDecl]
    exact mocksFromSpecs_none specs _ hs h3
  have h5 := mocksFromDecls_none decls _ hd h4
  simp only [interfaceToMockDecls, h5]
  rfl

/-- Witness for `zeroResultsAborts` at the concrete one-method input. -/
theorem zeroResultsAbortsWitness :
    interfaceToMockDecls zeroResultInput = Option.none :=
  zeroResultsAborts zeroResultInput
    [Spec.typeSpec "t" (.interfaceType (.cons (.mk ["M"]
      (.funcType (.some (.cons (.mk ["a"] (.ident "int")) .nil)) .none)) .nil))]
    "t"
    (.cons (.mk ["M"] (.funcType (.some (.cons (.mk ["a"] (.ident "int")) .nil))
      .none)) .nil)
    ["M"] (.some (.cons (.mk ["a"] (.ident "int")) .nil)) .none
    (List.Mem.head _) (List.Mem.head _) (List.Mem.head _) (Or.inl rfl)

/-- Claim C2, as stated, is false for compound (function-typed) results:
this result list declares exactly one Parameter, yet the generated return
text contains two extraction expressions, and neither casts to the
result's bare type `func(b int, c int)`. -/
theorem perResultClaimFalse :
    (fieldListParams funcResultField).map List.length = Option.some 1 ∧
    getParameters (.some funcResultField) = Option.some "f func(b int, c int)" ∧
    getReturnNames "f func(b int, c int)" =
      Option.some "args.Get(0).(int), args.Get(1).(int))" ∧
    getReturnNames "f func(b int, c int)" ≠
      Option.some "args.Get(0).(func(b int, c int))" :=
  ⟨rfl, rfl, rfl, by decide⟩

/-- Claim C2 (amended): for a nonempty rendered result list whose entries
each contain no `", "` separator and at least one non-whitespace
character (this excludes function-typed results rendering with an
embedded `", "`), the generated return text is the `", "`-join of exactly
one extraction expression per declared result, the i-th being
`args.Get(i)` cast to the i-th result's bare type (the last
whitespace-delimited token of its rendered text), for i = 0..R-1 in
declared order. -/
theorem returnNamesPerResult (rs : List String)
    (h1 : rs ≠ [])
    (h2 : ∀ r ∈ rs, hasCS r.data = false)
    (h3 : ∀ r ∈ rs, goFields r ≠ []) :
    getReturnNames (joinCS rs) =
      Option.some (joinCS (rs.enum.map (fun p =>
        "args.Get(" ++ toString p.1 ++ ").(" ++ (goFields p.2).getLastD "" ++ ")"))) := by
  simp only [getReturnNames, goSplitCS_joinCS rs h1 h2, returnNamesAux_spec rs h3 0]
  rfl

/-- Witness for `returnNamesPerResult` on the rendered results
`ret1 string, error`. -/
theorem returnNamesPerResultWitness :
    getReturnNames (joinCS ["ret1 string", "error"]) =
      Option.some (joinCS ((["ret1 string", "error"] : List String).enum.map (fun p =>
        "args.Get(" ++ toString p.1 ++ ").(" ++ (goFields p.2).getLastD "" ++ ")"))) :=
  returnNamesPerResult ["ret1 string", "error"]
    (by decide) (by decide) (by decide)

set_option maxRecDepth 16384 in
/-- Claim C3: on the classic single-method interface the call succeeds
and writes exactly the fixed header, the `biduleMock` struct embedding
`mock.Mock`, and the one method whose body records `arg1, arg2` and
returns `args.Get(0).(string), args.Get(1).(error)`. -/
theorem endToEndClassic :
    interfaceToMock (.ok classicInput) "" =
      Option.some (Except.ok (),
        "\npackage mocks\n\nimport (\n\t\"github.com/stretchr/testify/mock\"\n)\n\ntype biduleMock struct \x7b\n\tmock.Mock\n\x7d\n\nfunc (m *biduleMock) Method1(arg1 string, arg2 int) (string, error) \x7b\n\targs := m.Called(arg1, arg2)\n\treturn args.Get(0).(string), args.Get(1).(error)\n\x7d\n") :=
  rfl

/-- Claim C4: whenever parsing the input fails, the call returns the
parse error (wrapped as `parser.ParseFile: ...`) and the output sink's
contents are unchanged — nothing is written by the failed call. -/
theorem parseErrorWritesNothing (e sink : String) :
    interfaceToMock (.error e) sink =
      Option.some (Except.error ("parser.ParseFile: " ++ e), sink) := rfl

/-- Claim C5: a qualified type name `pkg.Name` renders as the full
`pkg.Name` in both named and unnamed result positions, and the
extraction cast derived from the rendered result text is the full
qualified name, not the trailing identifier alone. -/
theorem qualifiedResultFullName (pkg nm n : String)
    (h1 : cleanIdent pkg = true) (h2 : cleanIdent nm = true)
    (h3 : cleanIdent n = true) :
    getTypeName (.selectorExpr (.ident pkg) nm) = Option.some (pkg ++ "." ++ nm) ∧
    fieldParams (.mk [n] (.selectorExpr (.ident pkg) nm)) =
      Option.some [n ++ " " ++ (pkg ++ "." ++ nm)] ∧
    fieldParams (.mk [] (.selectorExpr (.ident pkg) nm)) =
      Option.some [pkg ++ "." ++ nm] ∧
    getTypeNameFromString (n ++ " " ++ (pkg ++ "." ++ nm)) =
      Option.some (pkg ++ "." ++ nm) ∧
    getTypeNameFromString (pkg ++ "." ++ nm) = Option.some (pkg ++ "." ++ nm) := by
  refine ⟨rfl, rfl, rfl, ?_, ?_⟩
  · rw [getTypeNameFromString,
      goFields_name_type n (pkg ++ "." ++ nm) (cleanIdent_ne_nil n h3)
        (cleanIdent_nospace n h3),
      goFields_single (pkg ++ "." ++ nm) (qualified_ne_nil pkg nm)
        (qualified_nospace pkg nm h1 h2)]
    rfl
  · rw [getTypeNameFromString,
      goFields_single (pkg ++ "." ++ nm) (qualified_ne_nil pkg nm)
        (qualified_nospace pkg nm h1 h2)]
    rfl

/-- Witness for `qualifiedResultFullName` at `foo.Bar` named `ret1`. -/
theorem qualifiedResultFullNameWitness :
    getTypeNameFromString ("ret1" ++ " " ++ ("foo" ++ "." ++ "Bar")) =
      Option.some ("foo" ++ "." ++ "Bar") :=
  (qualifiedResultFullName "foo" "Bar" "ret1"
    (by decide) (by decide) (by decide)).2.2.2.1

/-- Claim C6, as stated, is false when the shared type's rendered text
embeds `", "`: for `a, b func(x int, y int)` the extracted parameters do
expand to one entry per name, but the call-recording statement forwards
`a, y, b, y` (the first `strings.Fields` token of each `", "`-split
piece), not the declared names `a, b`. -/
theorem groupedNamesClaimFalse :
    getParameters (.some groupedFuncField) =
      Option.some "a func(x int, y int), b func(x int, y int)" ∧
    getArgumentNames "a func(x int, y int), b func(x int, y int)" =
      Option.some "a, y, b, y" ∧
    getArgumentNames "a func(x int, y int), b func(x int, y int)" ≠
      Option.some "a, b" :=
  ⟨rfl, rfl, by decide⟩

/-- Claim C6 (amended): for a parameter field declaring several names
under one type whose rendered text contains no `", "` separator (this
excludes function types rendering with an embedded `", "`, as in the
counterexample above), the field expands to one `name type` entry per
name in declared order, all sharing the rendered type text, and the
call-recording statement forwards exactly those names in the same
order. -/
theorem groupedNamesExpand (ns : List String) (T : Expr) (tT : String)
    (h1 : ns ≠ []) (h2 : ∀ n ∈ ns, cleanIdent n = true)
    (h3 : getTypeName T = Option.some tT) (h4 : hasCS tT.data = false) :
    getParameters (.some (.cons (.mk ns T) .nil)) =
      Option.some (joinCS (ns.map (fun n => n ++ " " ++ tT))) ∧
    getArgumentNames (joinCS (ns.map (fun n => n ++ " " ++ tT))) =
      Option.some (joinCS ns) := by
  constructor
  · cases ns with
    | nil => exact absurd rfl h1
    | cons n ns2 =>
      simp [getParameters, fieldListParams, fieldParams, h3]
  · have hpieces : ∀ p ∈ ns.map (fun n => n ++ " " ++ tT), hasCS p.data = false := by
      intro p hp
      rcases List.mem_map.mp hp with ⟨x, hx, rfl⟩
      exact hasCS_name_type x tT (cleanIdent_nocomma x (h2 x hx)) h4
    have hnem : ns.map (fun n => n ++ " " ++ tT) ≠ [] := by
      cases ns with
      | nil => exact absurd rfl h1
      | cons a b => simp
    have hmapm : (ns.map (fun n => n ++ " " ++ tT)).mapM
        (fun param => (goFields param).head?) =
        Option.some ((ns.map (fun n => n ++ " " ++ tT)).map
          (fun p => (goFields p).headD "")) := by
      apply mapM_eq_map
      intro p hp
      rcases List.mem_map.mp hp with ⟨x, hx, rfl⟩
      rw [goFields_name_type x tT (cleanIdent_ne_nil x (h2 x hx))
        (cleanIdent_nospace x (h2 x hx))]
      rfl
    have hnames : (ns.map (fun n => n ++ " " ++ tT)).map
        (fun p => (goFields p).headD "") = ns := by
      rw [List.map_map]
      have hcong : ∀ x ∈ ns,
          ((fun p => (goFields p).headD "") ∘ (fun n => n ++ " " ++ tT)) x = x := by
        intro x hx
        simp only [Function.comp]
        rw [goFields_name_type x tT (cleanIdent_ne_nil x (h2 x hx))
          (cleanIdent_nospace x (h2 x hx))]
        rfl
      rw [List.map_congr_left hcong]
      simp
    simp only [getArgumentNames, goSplitCS_joinCS _ hnem hpieces, hmapm, hnames]
    rfl

/-- Witness for `groupedNamesExpand` on `arg1, arg2 int`. -/
theorem groupedNamesExpandWitness :
    getArgumentNames (joinCS ((["arg1", "arg2"] : List String).map
      (fun n => n ++ " " ++ "int"))) = Option.some (joinCS ["arg1", "arg2"]) :=
  (groupedNamesExpand ["arg1", "arg2"] (.ident "int") "int"
    (by decide) (by decide) rfl (by decide)).2

/-- Claim C7: rendering a pointer type yields exactly the pointee's text;
the `*` marker never appears in rendered types. -/
theorem pointerRendersAsPointee (x : Expr) :
    getTypeName (.starExpr x) = getTypeName x := by
  have h : getTypeName (.starExpr x) = (getTypeName x).map (fun s => "" ++ s) := rfl
  rw [h]
  cases getTypeName x with
  | none => rfl
  | some s => simp

/-- Claim C8: node kinds outside the supported set (here struct, channel
and variadic-ellipsis types, all handled by the source's `default:`
branch) render to the empty string without error, and inline interface
types render as the literal `interface\x7b\x7d`. -/
theorem unsupportedKindsRenderEmpty (fs ms : FieldList) (v e : Expr) :
    getTypeName (.structType fs) = Option.some "" ∧
    getTypeName (.chanType v) = Option.some "" ∧
    getTypeName (.ellipsisType e) = Option.some "" ∧
    getTypeName (.interfaceType ms) = Option.some "interface\x7b\x7d" :=
  ⟨rfl, rfl, rfl, rfl⟩

/-- Claim C9: a named interface declaration with zero methods succeeds,
yields an empty method list, and renders as a `<TypeName>Mock` struct
block embedding `mock.Mock` with no method functions after it. -/
theorem zeroMethodInterfaceRenders (nm : String) :
    getMethodsFromInterface .nil (nm ++ "Mock") = Option.some [] ∧
    interfaceToMockDecls [.genDecl [.typeSpec nm (.interfaceType .nil)]] =
      Option.some (mockHeader ++ ("\ntype " ++ (nm ++ "Mock") ++
        " struct \x7b\n\tmock.Mock\n\x7d" ++ "\n")) := by
  constructor
  · rfl
  · have h : interfaceToMockDecls [.genDecl [.typeSpec nm (.interfaceType .nil)]] =
        Option.some (executeTemplate [(nm ++ "Mock", [])]) := rfl
    rw [h]
    simp only [executeTemplate, renderMocks, renderMock, renderMethods,
      String.append_empty, String.append_assoc]

/-- Claim C10: for every interface containing a method with an empty
parameter list, the generation call does not return normally:
`getArgumentNames` takes `parts[0]` of `strings.Fields` of the single
empty piece of `strings.Split("", ", ")`, an index out of range, so the
call aborts instead of emitting a call-recording statement with no
arguments. -/
theorem emptyParamsAborts (decls : List Decl) (specs : List Spec) (nm : String)
    (ms : FieldList) (names : List String) (ps rs : FieldListOpt)
    (hd : Decl.genDecl specs ∈ decls)
    (hs : Spec.typeSpec nm (.interfaceType ms) ∈ specs)
    (hm : Field.mk names (.funcType ps rs) ∈ ms.toList)
    (hps : ps = .none ∨ ps = .some .nil) :
    interfaceToMockDecls decls = Option.none := by
  have h1 : methodData (nm ++ "Mock") (.mk names (.funcType ps rs)) = Option.none :=
    methodData_emptyParams _ names ps rs hps
  have h2 : getMethodsFromInterface ms (nm ++ "Mock") = Option.none :=
    getMethodsFromInterface_none _ ms _ hm h1
  have h3 : mocksFromSpec (.typeSpec nm (.interfaceType ms)) = Option.none := by
    simp only [mocksFromSpec, h2]
    rfl
  have h4 : mocksFromDecl (.genDecl specs) = Option.none := by
    rw [mocksFromDecl]
    exact mocksFromSpecs_none specs _ hs h3
  have h5 := mocksFromDecls_none decls _ hd h4
  simp only [interfaceToMockDecls, h5]
  rfl

/-- Witness for `emptyParamsAborts` at the concrete `M() int` input. -/
theorem emptyParamsAbortsWitness :
    interfaceToMockDecls emptyParamsInput = Option.none :=
  emptyParamsAborts emptyParamsInput
    [Spec.typeSpec "t" (.interfaceType (.cons (.mk ["M"]
      (.funcType (.some .nil) (.some (.cons (.mk [] (.ident "int")) .nil)))) .nil))]
    "t"
    (.cons (.mk ["M"] (.funcType (.some .nil)
      (.some (.cons (.mk [] (.ident "int")) .nil)))) .nil)
    ["M"] (.some .nil) (.some (.cons (.mk [] (.ident "int")) .nil))
    (List.Mem.head _) (List.Mem.head _) (List.Mem.head _) (Or.inr rfl)

end MockGen
